import Mathlib

/-!
Verification of the candle-cache subsystem of the tradebot repository
(`trade/data/history.py`, `trade/data/dataprovider.py`).

The embedding models:
* a candle as its millisecond timestamp plus the remaining OHLCV fields;
* the cache file for one `(pair, interval)` key as `Option (List Candle)`
  (`none` = file absent, `some l` = file present and parsed to `l`);
* the exchange as a fetch capability `Int → List Candle` (argument: `since_ms`);
* the current clock as an integer `now` in seconds and the ticker-interval
  length in minutes as an integer parameter;
* a Python `IndexError` escaping into the broad `except BaseException` of
  `download_pair_history` as the explicit failure branches below;
* `trim_tickerlist`'s `raise ValueError` as `Except.error`.
-/

/-- One OHLCV candle row `[timestampMs, open, high, low, close, volume]`:
`ts` is the leading timestamp (`row[0]`), `fields` the remaining entries. -/
structure Candle where
  ts : Int
  fields : List Int
deriving DecidableEq, Repr

/-- Modelled from the spec: `TimeRange` (declared in `trade/arguments.py`, which
is not part of the sources) is a value type with independent start and stop
boundaries, each of kind `none`, `date`, `line` or `index`, carrying integer
boundary values `startts` / `stopts`.  Constructor order follows the call
`TimeRange(None, None, 0, 0)` in the sources. -/
structure TimeRange where
  starttype : Option String
  stoptype : Option String
  startts : Int
  stopts : Int
deriving DecidableEq, Repr

/-- Python truthiness of an optional integer (`None` and `0` are falsy). -/
def truthyInt : Option Int → Bool
  | none => false
  | some v => v != 0

/-- Python index clamping for a slice endpoint: negative indices count from the
end and are clamped below by `0`; nonnegative ones are clamped above by `n`. -/
def pyIdx (n : Nat) (i : Int) : Nat :=
  if i < 0 then (i + n).toNat else min i.toNat n

/-- Python slice `l[a:b]` (step 1). -/
def pySlice (l : List Candle) (a b : Int) : List Candle :=
  (l.take (pyIdx l.length b)).drop (pyIdx l.length a)

/-- The `while` loop of `trim_tickerlist` for a `date` start boundary: index of
the first candle whose timestamp is not below the threshold `t`, or the length
of the list when every candle is below it. -/
def dateScan (t : Int) : List Candle → Nat
  | [] => 0
  | c :: rest => if c.ts < t then dateScan t rest + 1 else 0

/-- `trim_tickerlist` (history.py lines 22-44).  Note the source compares the
candle timestamp against `timerange.startts * 100` in the `date` branch, and
the `line` kind is read from `starttype`/`startts` and bounds the stop index. -/
def trim_tickerlist (tickerlist : List Candle) (timerange : TimeRange) :
    Except String (List Candle) :=
  match tickerlist with
  | [] => .ok []
  | _ =>
    let stop_index : Int :=
      if timerange.starttype = some "line" then timerange.startts
      else (tickerlist.length : Int)
    let start_index : Int :=
      if timerange.starttype = some "index" then timerange.startts
      else if timerange.starttype = some "date" then
        (dateScan (timerange.startts * 100) tickerlist : Int)
      else 0
    if start_index > stop_index then .error "timerange incorrect"
    else .ok (pySlice tickerlist start_index stop_index)

/-- `load_cached_data_for_updating` (history.py lines 127-159).  `cacheFile` is
the parse of the cache file, `now` the current Unix time in seconds,
`intervalMin` the value of `constant.TICKER_INTERVAL_MINUTES[tick_interval]`.
Returns the trusted prefix and the optional `since_ms` cursor. -/
def load_cached_data_for_updating (cacheFile : Option (List Candle))
    (timerange : Option TimeRange) (now intervalMin : Int) :
    List Candle × Option Int :=
  let since0 : Option Int :=
    match timerange with
    | none => none
    | some tr =>
      if tr.starttype = some "date" then some (tr.startts * 1000)
      else if tr.stoptype = some "line" then
        some ((now + tr.stopts * intervalMin * 60) * 1000)
      else none
  let data : List Candle :=
    match cacheFile with
    | some d => d.dropLast
    | none => []
  match data with
  | [] => ([], since0)
  | c :: rest =>
    if truthyInt since0 ∧ since0.getD 0 < c.ts then ([], since0)
    else (c :: rest, some (((c :: rest).getLast (List.cons_ne_nil c rest)).ts + 1))

/-- `download_pair_history` (history.py lines 161-201).  Returns the success
flag together with the cache-file content after the call.  The branch for a
one-element trusted prefix models the `IndexError` raised by the debug-log
expression `data[1][0]` (line 183); the branch for an empty merged list models
the `IndexError` raised by `data[0][0]` (line 193).  Both are swallowed by the
`except BaseException` handler, which returns `False` with the file untouched.
The default cursor models `int(arrow.utcnow().shift(days=30).float_timestamp) * 1000`,
i.e. thirty days AFTER `now`. -/
def download_pair_history (cacheFile : Option (List Candle))
    (timerange : Option TimeRange) (fetch : Int → List Candle)
    (now intervalMin : Int) : Bool × Option (List Candle) :=
  let r := load_cached_data_for_updating cacheFile timerange now intervalMin
  let data := r.1
  let since_ms := r.2
  if data.length = 1 then (false, cacheFile)
  else
    let sinceArg : Int :=
      if truthyInt since_ms then since_ms.getD 0
      else (now + 30 * 86400) * 1000
    let merged := data ++ fetch sinceArg
    if merged = [] then (false, cacheFile)
    else (true, some merged)

/-- `load_tickerdata_file` (history.py lines 46-62): `none` when the file is
absent or parses to something falsy, otherwise the (possibly empty) trim. -/
def load_tickerdata_file (file : Option (List Candle))
    (timerange : Option TimeRange) : Except String (Option (List Candle)) :=
  match file with
  | none => .ok none
  | some pd =>
    if pd = [] then .ok none
    else
      match timerange with
      | none => .ok (some pd)
      | some tr => (trim_tickerlist pd tr).map some

/-- `load_pair_history` (history.py lines 64-98).  `parse` stands for
`parse_ticker_dataframe` (an external conversion capability), `exchange` for
the optional exchange.  The whole body sits under `if refresh_pairs:`, so the
`false` case falls off the end of the function and returns `None`. -/
def load_pair_history {α : Type} (parse : List Candle → α)
    (refresh_pairs : Bool) (exchange : Option (Int → List Candle))
    (cacheFile : Option (List Candle)) (timerange : TimeRange)
    (now intervalMin : Int) : Except String (Option α) :=
  if refresh_pairs then
    match exchange with
    | none => .error "Exchange needs to be initialized"
    | some fetch =>
      let st := (download_pair_history cacheFile (some timerange) fetch now intervalMin).2
      match load_tickerdata_file st (some timerange) with
      | .error e => .error e
      | .ok none => .ok none
      | .ok (some pairdata) =>
        if pairdata = [] then .ok none
        else .ok (some (parse pairdata))
  else .ok none

/-- `DataProvider.historic_ohlcv` (dataprovider.py lines 70-81): calls
`load_pair_history` with `refresh_pairs=False`, no exchange, and the default
`TimeRange(None, None, 0, 0)`. -/
def historic_ohlcv {α : Type} (parse : List Candle → α)
    (cacheFile : Option (List Candle)) (now intervalMin : Int) :
    Except String (Option α) :=
  load_pair_history parse false none cacheFile ⟨none, none, 0, 0⟩ now intervalMin

/-- `load_data` (history.py lines 101-119): per-pair loading, omitting pairs
whose history is `None`.  `cacheOf` maps each pair to its cache file. -/
def load_data {α : Type} (parse : List Candle → α) (pairs : List String)
    (refresh_pairs : Bool) (exchange : Option (Int → List Candle))
    (cacheOf : String → Option (List Candle)) (timerange : TimeRange)
    (now intervalMin : Int) : Except String (List (String × α)) :=
  pairs.foldlM (fun result pair =>
    match load_pair_history parse refresh_pairs exchange (cacheOf pair)
        timerange now intervalMin with
    | .error e => .error e
    | .ok none => .ok result
    | .ok (some h) => .ok (result ++ [(pair, h)])) []

/-- Strictly increasing timestamps along a series. -/
def strictlyIncreasing (l : List Candle) : Prop :=
  List.Chain' (fun a b => a.ts < b.ts) l

/-- Boolean checker for `strictlyIncreasing`. -/
def strictlyIncreasingB : List Candle → Bool
  | [] => true
  | [_] => true
  | a :: b :: rest =>
    if a.ts < b.ts then strictlyIncreasingB (b :: rest) else false

theorem strictlyIncreasing_iff_B :
    ∀ l : List Candle, strictlyIncreasing l ↔ strictlyIncreasingB l = true
  | [] => by simp [strictlyIncreasing, strictlyIncreasingB]
  | [a] => by simp [strictlyIncreasing, strictlyIncreasingB]
  | a :: b :: rest => by
    have ih := strictlyIncreasing_iff_B (b :: rest)
    unfold strictlyIncreasing at ih ⊢
    unfold strictlyIncreasingB
    rw [List.chain'_cons, ih]
    by_cases h : a.ts < b.ts <;> simp [h]

instance (l : List Candle) : Decidable (strictlyIncreasing l) :=
  decidable_of_iff (strictlyIncreasingB l = true) (strictlyIncreasing_iff_B l).symm


/-- Helper: a `foldlM` whose step always succeeds with an unchanged
accumulator returns the initial accumulator. -/
theorem foldlM_ok_id {α : Type} (pairs : List String) (acc : List (String × α)) :
    (pairs.foldlM (fun (result : List (String × α)) (_ : String) =>
      (Except.ok result : Except String (List (String × α)))) acc) = .ok acc := by
  induction pairs generalizing acc with
  | nil => rfl
  | cons p ps ih => simpa [List.foldlM] using ih acc

/-- Claim C1: warm-cache incremental sync.  With the cache holding candles at
timestamps 1000, 1300, 1600 and no requested TimeRange,
`load_cached_data_for_updating` drops the last candle and computes
`since_ms = 1301`; with the fetch capability answering `[1600, 1900]` for that
cursor, `download_pair_history` persists `[1000, 1300, 1600, 1900]` and
returns `True`. -/
theorem C1_warm_cache_incremental_sync :
    load_cached_data_for_updating
        (some [⟨1000, []⟩, ⟨1300, []⟩, ⟨1600, []⟩]) none 0 5 =
      ([⟨1000, []⟩, ⟨1300, []⟩], some 1301) ∧
    download_pair_history (some [⟨1000, []⟩, ⟨1300, []⟩, ⟨1600, []⟩]) none
        (fun s => if s = 1301 then [⟨1600, []⟩, ⟨1900, []⟩] else []) 0 5 =
      (true, some [⟨1000, []⟩, ⟨1300, []⟩, ⟨1600, []⟩, ⟨1900, []⟩]) := by
  exact ⟨by decide, by decide⟩

/-- Claim C2 (code bug): `trim_tickerlist` scales a `date`-typed start by
`100`, not `1000`.  The candle at timestamp 500 is below the claimed threshold
`3 * 1000`, so per the claim the trimmed result should be empty, yet the code
keeps it because `500 ≥ 3 * 100`. -/
theorem C2_date_trim_uses_factor_100 :
    trim_tickerlist [⟨500, []⟩] ⟨some "date", none, 3, 0⟩ = .ok [⟨500, []⟩] ∧
    (500 : Int) < 3 * 1000 := by
  exact ⟨rfl, by decide⟩

/-- Claim C3 (code bug): on a cold cache with no TimeRange the default cursor
is `(now + 30 days) * 1000` — thirty days in the FUTURE (the source shifts by
`days=30`, not `days=-30`).  At `now = 0` the fetch capability is invoked with
`2592000000`, not `-2592000000`. -/
theorem C3_default_cursor_is_thirty_days_ahead :
    download_pair_history none none (fun s => [⟨s, []⟩]) 0 5 =
      (true, some [⟨2592000000, []⟩]) ∧
    (2592000000 : Int) = (0 + 30 * 86400) * 1000 := by
  exact ⟨by decide, by decide⟩

/-- Claim C5 (code bug): empty cache, no TimeRange, fetch returns `[]` — the
debug-log expression `data[0][0]` raises `IndexError` on the empty merged
list, the broad handler swallows it, and the call returns `False` with
nothing persisted (the claim, following the spec, expects `True`). -/
theorem C5_empty_fetch_cold_cache_returns_false :
    download_pair_history none none (fun _ => []) 0 5 = (false, none) := by
  decide

/-- Claim C10: a cache file parsing to exactly two candles with no TimeRange
makes `download_pair_history` fail for EVERY fetch capability: the trusted
prefix has one element, the debug-log expression `data[1][0]` raises
`IndexError`, and the handler returns `False` with the file unchanged. -/
theorem C10_two_candle_cache_always_fails (c1 c2 : Candle)
    (fetch : Int → List Candle) (now intervalMin : Int) :
    download_pair_history (some [c1, c2]) none fetch now intervalMin =
      (false, some [c1, c2]) := by
  simp [download_pair_history, load_cached_data_for_updating, truthyInt]

/-- Claim C9: with `refresh_pairs = False`, `load_pair_history` returns `None`
unconditionally, `DataProvider.historic_ohlcv` therefore always returns
`None`, and `load_data` with `refresh_pairs = False` returns the empty
mapping for every list of pairs. -/
theorem C9_refresh_false_yields_nothing {α : Type} (parse : List Candle → α)
    (exchange : Option (Int → List Candle)) (cacheFile : Option (List Candle))
    (tr : TimeRange) (now intervalMin : Int) (pairs : List String)
    (cacheOf : String → Option (List Candle)) :
    load_pair_history parse false exchange cacheFile tr now intervalMin = .ok none ∧
    historic_ohlcv parse cacheFile now intervalMin = .ok none ∧
    load_data parse pairs false exchange cacheOf tr now intervalMin = .ok [] := by
  refine ⟨rfl, rfl, ?_⟩
  exact foldlM_ok_id pairs []

/-- Claim C6 counterexample: with cached candles at 5000, 6000, 7000 and a
`date` start at `startts = 1` (1000 ms, earlier than the earliest cached
candle), `download_pair_history` does NOT serve the truncated cache: the
persisted file is exactly the freshly fetched data beginning at the requested
start 1000, the cached candles having been discarded. -/
theorem C6_start_gap_refetches_cex :
    download_pair_history (some [⟨5000, []⟩, ⟨6000, []⟩, ⟨7000, []⟩])
        (some ⟨some "date", none, 1, 0⟩) (fun s => [⟨s, []⟩]) 0 5 =
      (true, some [⟨1000, []⟩]) := by
  decide

/-- Claim C6 amended: when a `date`-typed start boundary's millisecond value is
nonzero and earlier than the earliest cached candle, `load_cached_data_for_updating`
discards the whole cache and keeps `since_ms = startts * 1000`, so
`download_pair_history` re-downloads from the requested start and persists the
fetched data alone (here stated for a nonempty fetch result). -/
theorem C6_start_gap_discards_cache_and_refetches (c1 c2 : Candle)
    (rest : List Candle) (tr : TimeRange) (fetch : Int → List Candle)
    (now intervalMin : Int)
    (hdate : tr.starttype = some "date")
    (hnz : tr.startts * 1000 ≠ 0)
    (hlt : tr.startts * 1000 < c1.ts)
    (hfetch : fetch (tr.startts * 1000) ≠ []) :
    load_cached_data_for_updating (some (c1 :: c2 :: rest)) (some tr)
        now intervalMin = ([], some (tr.startts * 1000)) ∧
    download_pair_history (some (c1 :: c2 :: rest)) (some tr) fetch
        now intervalMin = (true, some (fetch (tr.startts * 1000))) := by
  have hload : load_cached_data_for_updating (some (c1 :: c2 :: rest)) (some tr)
      now intervalMin = ([], some (tr.startts * 1000)) := by
    simp [load_cached_data_for_updating, hdate, truthyInt, hnz, hlt]
  refine ⟨hload, ?_⟩
  simp [download_pair_history, hload, truthyInt, hnz, hfetch]

/-- Claim C6 amended, witness at a concrete input. -/
theorem C6_start_gap_discards_cache_and_refetches_witness :
    load_cached_data_for_updating (some [⟨5000, []⟩, ⟨6000, []⟩])
        (some ⟨some "date", none, 1, 0⟩) 0 5 = ([], some 1000) ∧
    download_pair_history (some [⟨5000, []⟩, ⟨6000, []⟩])
        (some ⟨some "date", none, 1, 0⟩) (fun s => [⟨s, []⟩]) 0 5 =
      (true, some [⟨1000, []⟩]) :=
  C6_start_gap_discards_cache_and_refetches ⟨5000, []⟩ ⟨6000, []⟩ []
    ⟨some "date", none, 1, 0⟩ (fun s => [⟨s, []⟩]) 0 5 rfl (by decide)
    (by decide) (by decide)

/-- Claim C8: a `line`-typed stop boundary (stored, per the repository's
convention, in `starttype`/`startts`) with nonnegative count keeps the first
`lineCount` rows of a nonempty series: the stop index becomes `lineCount`
while the start index stays at its default 0. -/
theorem C8_line_stop_keeps_first_rows (l : List Candle) (r : TimeRange)
    (hne : l ≠ []) (hline : r.starttype = some "line") (hnn : 0 ≤ r.startts) :
    trim_tickerlist l r = .ok (l.take r.startts.toNat) := by
  match l, hne with
  | c :: cs, _ =>
    simp only [trim_tickerlist, hline, reduceCtorEq, Option.some.injEq,
      String.reduceEq, if_true, if_false, reduceIte]
    rw [if_neg (by omega)]
    unfold pySlice pyIdx
    rw [if_neg (by omega), if_neg (by omega)]
    simp only [Int.toNat_zero, Int.toNat_natCast]
    rw [show ((0 : Nat) ⊓ (c :: cs).length) = 0 from by omega, List.drop_zero]
    exact congrArg Except.ok (List.take_eq_take.mpr (by omega))

/-- Helper: the date scan never runs past the end of the list. -/
theorem dateScan_le (t : Int) : ∀ l : List Candle, dateScan t l ≤ l.length
  | [] => Nat.le_refl 0
  | c :: rest => by
    unfold dateScan
    split
    · exact Nat.succ_le_succ (dateScan_le t rest)
    · exact Nat.zero_le _

/-- Helper: rescanning the suffix that a date scan produced finds index 0. -/
theorem dateScan_drop (t : Int) : ∀ l : List Candle,
    dateScan t (l.drop (dateScan t l)) = 0
  | [] => rfl
  | c :: rest => by
    by_cases h : c.ts < t
    · have ih := dateScan_drop t rest
      simp [dateScan, h, ih]
    · simp [dateScan, h]

/-- Helper: trimming with a `line`-typed start keeps the first `startts` rows
when `startts` is nonnegative. -/
theorem trim_line_eq (l : List Candle) (r : TimeRange)
    (hne : l ≠ []) (hline : r.starttype = some "line") (hnn : 0 ≤ r.startts) :
    trim_tickerlist l r = .ok (l.take r.startts.toNat) := by
  match l, hne with
  | c :: cs, _ =>
    simp only [trim_tickerlist, hline, reduceCtorEq, Option.some.injEq,
      String.reduceEq, if_true, if_false, reduceIte]
    rw [if_neg (by omega)]
    unfold pySlice pyIdx
    rw [if_neg (by omega), if_neg (by omega)]
    simp only [Int.toNat_zero, Int.toNat_natCast]
    rw [show ((0 : Nat) ⊓ (c :: cs).length) = 0 from by omega, List.drop_zero]
    exact congrArg Except.ok (List.take_eq_take.mpr (by omega))

/-- Helper: trimming with a `date`-typed start drops the prefix found by the
date scan (threshold `startts * 100` as in the source). -/
theorem trim_date_eq (l : List Candle) (r : TimeRange)
    (hne : l ≠ []) (hdate : r.starttype = some "date") :
    trim_tickerlist l r = .ok (l.drop (dateScan (r.startts * 100) l)) := by
  match l, hne with
  | c :: cs, _ =>
    have hle := dateScan_le (r.startts * 100) (c :: cs)
    simp only [trim_tickerlist, hdate, reduceCtorEq, Option.some.injEq,
      String.reduceEq, if_true, if_false, reduceIte]
    rw [if_neg (by omega)]
    unfold pySlice pyIdx
    rw [if_neg (by omega), if_neg (by omega)]
    simp only [Int.toNat_natCast]
    rw [Nat.min_self, List.take_length,
      show dateScan (r.startts * 100) (c :: cs) ⊓ (c :: cs).length =
        dateScan (r.startts * 100) (c :: cs) from by omega]

/-- Helper: with a start kind that is none of `line`, `index`, `date`, trimming
returns the list unchanged. -/
theorem trim_default_eq (l : List Candle) (r : TimeRange)
    (hline : r.starttype ≠ some "line") (hidx : r.starttype ≠ some "index")
    (hdate : r.starttype ≠ some "date") :
    trim_tickerlist l r = .ok l := by
  cases l with
  | nil => rfl
  | cons c cs =>
    simp only [trim_tickerlist, if_neg hline, if_neg hidx, if_neg hdate]
    rw [if_neg (by omega)]
    unfold pySlice pyIdx
    rw [if_neg (by omega), if_neg (by omega)]
    simp only [Int.toNat_zero, Int.toNat_natCast]
    rw [Nat.min_self, List.take_length,
      show ((0 : Nat) ⊓ (c :: cs).length) = 0 from by omega, List.drop_zero]

/-- Helper: trimming with a `line`-typed start and a negative count raises
(start index 0 exceeds the negative stop index). -/
theorem trim_line_neg (l : List Candle) (r : TimeRange)
    (hne : l ≠ []) (hline : r.starttype = some "line") (hneg : r.startts < 0) :
    trim_tickerlist l r = .error "timerange incorrect" := by
  match l, hne with
  | c :: cs, _ =>
    simp only [trim_tickerlist, hline, reduceCtorEq, Option.some.injEq,
      String.reduceEq, if_true, if_false, reduceIte]
    rw [if_pos (by omega)]

/-- Claim C7 counterexample: with an `index`-typed start of 1, trimming
`[1, 2, 3]` gives `[2, 3]`, but trimming the result again gives `[3]` — the
verbatim offset is applied a second time, so trimming is NOT idempotent. -/
theorem C7_trim_not_idempotent_for_index :
    trim_tickerlist [⟨1, []⟩, ⟨2, []⟩, ⟨3, []⟩] ⟨some "index", none, 1, 0⟩ =
      .ok [⟨2, []⟩, ⟨3, []⟩] ∧
    trim_tickerlist [⟨2, []⟩, ⟨3, []⟩] ⟨some "index", none, 1, 0⟩ =
      .ok [⟨3, []⟩] ∧
    ([⟨3, []⟩] : List Candle) ≠ [⟨2, []⟩, ⟨3, []⟩] :=
  ⟨rfl, rfl, by decide⟩

/-- Claim C7 amended: trimming is idempotent for every start kind other than
`index` (none, `date`, `line`, and any unrecognised kind): whenever the first
trim succeeds, re-trimming its result with the same range returns it
unchanged. -/
theorem C7_trim_idempotent_for_non_index (l l' : List Candle) (r : TimeRange)
    (hidx : r.starttype ≠ some "index")
    (h : trim_tickerlist l r = .ok l') :
    trim_tickerlist l' r = .ok l' := by
  cases hl : l with
  | nil =>
    subst hl
    have : l' = ([] : List Candle) := by
      simpa [trim_tickerlist] using h.symm
    rw [this]
    rfl
  | cons c cs =>
    subst hl
    by_cases hline : r.starttype = some "line"
    · by_cases hs : 0 ≤ r.startts
      · rw [trim_line_eq _ r (by simp) hline hs] at h
        have hl' : l' = (c :: cs).take r.startts.toNat := by
          exact (Except.ok.injEq _ _).mp h.symm
        cases hne : l' with
        | nil => rfl
        | cons d ds =>
          rw [← hne]
          rw [trim_line_eq l' r (by rw [hne]; simp) hline hs]
          have hlen : l'.length ≤ r.startts.toNat := by
            rw [hl', List.length_take]
            omega
          rw [List.take_of_length_le hlen]
      · rw [trim_line_neg _ r (by simp) hline (by omega)] at h
        exact absurd h (by simp)
    · by_cases hdate : r.starttype = some "date"
      · rw [trim_date_eq _ r (by simp) hdate] at h
        have hl' : l' = (c :: cs).drop (dateScan (r.startts * 100) (c :: cs)) := by
          exact (Except.ok.injEq _ _).mp h.symm
        cases hne : l' with
        | nil => rfl
        | cons d ds =>
          rw [← hne]
          rw [trim_date_eq l' r (by rw [hne]; simp) hdate]
          rw [hl', dateScan_drop, List.drop_zero, ← hl']
      · rw [trim_default_eq _ r hline hidx hdate] at h
        have hl' : l' = c :: cs := by
          exact (Except.ok.injEq _ _).mp h.symm
        rw [hl']
        exact trim_default_eq _ r hline hidx hdate

/-- Claim C7 amended, witness at a concrete input. -/
theorem C7_trim_idempotent_for_non_index_witness :
    trim_tickerlist [⟨1, []⟩] ⟨some "date", none, 0, 0⟩ = .ok [⟨1, []⟩] :=
  C7_trim_idempotent_for_non_index [⟨1, []⟩] [⟨1, []⟩]
    ⟨some "date", none, 0, 0⟩ (by decide) rfl

/-- Claim C4 counterexample: the merge is a plain concatenation.  With cache
`[1000, 1300, 1600]` and an overlapping fetch result `[1300, 1900]`, the
persisted series is `[1000, 1300, 1300, 1900]` — the duplicate 1300 is NOT
discarded, and the result is not strictly increasing. -/
theorem C4_merge_keeps_overlapping_candle :
    download_pair_history (some [⟨1000, []⟩, ⟨1300, []⟩, ⟨1600, []⟩]) none
        (fun _ => [⟨1300, []⟩, ⟨1900, []⟩]) 0 5 =
      (true, some [⟨1000, []⟩, ⟨1300, []⟩, ⟨1300, []⟩, ⟨1900, []⟩]) ∧
    ¬ strictlyIncreasing [⟨1000, []⟩, ⟨1300, []⟩, ⟨1300, []⟩, ⟨1900, []⟩] :=
  ⟨by decide, by decide⟩

/-- Helper: on a present cache file, `load_cached_data_for_updating` either
returns an empty trusted prefix, or returns the cached list minus its last
element together with a cursor one past the timestamp of the last kept
candle. -/
theorem load_cached_cases (l : List Candle) (tr : Option TimeRange)
    (now intervalMin : Int) :
    (load_cached_data_for_updating (some l) tr now intervalMin).1 = [] ∨
    (∃ c, (load_cached_data_for_updating (some l) tr now intervalMin).1 = l.dropLast ∧
      l.dropLast.getLast? = some c ∧
      (load_cached_data_for_updating (some l) tr now intervalMin).2 = some (c.ts + 1)) := by
  unfold load_cached_data_for_updating
  cases hdl : l.dropLast with
  | nil => left; simp [hdl]
  | cons c rest =>
    simp only [hdl]
    split
    · left; rfl
    · right
      refine ⟨(c :: rest).getLast (List.cons_ne_nil c rest), rfl, ?_, rfl⟩
      exact List.getLast?_eq_getLast _ _

/-- Claim C4 amended: the merge performs no filtering, so strict monotonicity
of the persisted series holds only under the fetch capability's contract.  If
the cached series is strictly increasing with nonnegative timestamps and every
fetch result is strictly increasing with timestamps at least the requested
cursor, then whenever `download_pair_history` succeeds the persisted series is
strictly increasing. -/
theorem C4_merge_strictly_increasing_under_contract (l : List Candle)
    (tr : Option TimeRange) (fetch : Int → List Candle)
    (now intervalMin : Int) (out : List Candle)
    (hl : strictlyIncreasing l)
    (hpos : ∀ c ∈ l, 0 ≤ c.ts)
    (hfetch : ∀ s : Int, strictlyIncreasing (fetch s) ∧ ∀ x ∈ fetch s, s ≤ x.ts)
    (hrun : download_pair_history (some l) tr fetch now intervalMin =
      (true, some out)) :
    strictlyIncreasing out := by
  have hcases := load_cached_cases l tr now intervalMin
  rcases hS : load_cached_data_for_updating (some l) tr now intervalMin with ⟨data, since⟩
  rw [hS] at hcases
  unfold download_pair_history at hrun
  rw [hS] at hrun
  dsimp only [] at hrun hcases
  rcases hcases with hempty | ⟨c, hdata, hlast, hsince⟩
  · subst hempty
    simp only [List.length_nil, List.nil_append] at hrun
    rw [if_neg (by omega)] at hrun
    by_cases hf : fetch (if truthyInt since = true then since.getD 0
        else (now + 30 * 86400) * 1000) = []
    · rw [if_pos hf] at hrun
      exact absurd hrun (by simp)
    · rw [if_neg hf] at hrun
      simp only [Prod.mk.injEq, Option.some.injEq] at hrun
      rw [← hrun.2]
      exact (hfetch _).1
  · subst hdata hsince
    have hmem : c ∈ l := by
      have hmem' : c ∈ l.dropLast := List.mem_of_mem_getLast? hlast
      exact (List.dropLast_sublist l).mem hmem'
    have hts : 0 ≤ c.ts := hpos c hmem
    have htruthy : truthyInt (some (c.ts + 1)) = true := by
      simp [truthyInt]; omega
    by_cases hlen : l.dropLast.length = 1
    · rw [if_pos hlen] at hrun
      exact absurd hrun (by simp)
    · rw [if_neg hlen, if_pos htruthy] at hrun
      simp only [Option.getD_some] at hrun
      by_cases hm : l.dropLast ++ fetch (c.ts + 1) = []
      · rw [if_pos hm] at hrun
        exact absurd hrun (by simp)
      · rw [if_neg hm] at hrun
        simp only [Prod.mk.injEq, Option.some.injEq] at hrun
        rw [← hrun.2]
        refine List.Chain'.append ?_ (hfetch (c.ts + 1)).1 ?_
        · rw [List.dropLast_eq_take]
          exact hl.take _
        intro x hx y hy
        rw [hlast, Option.mem_some_iff] at hx
        have hyts : c.ts + 1 ≤ y.ts :=
          (hfetch (c.ts + 1)).2 y (List.mem_of_mem_head? hy)
        rw [← hx]
        omega

/-- Claim C4 amended, witness at a concrete input. -/
theorem C4_merge_strictly_increasing_under_contract_witness :
    strictlyIncreasing [⟨1000, []⟩, ⟨2000, []⟩, ⟨2001, []⟩] :=
  C4_merge_strictly_increasing_under_contract
    [⟨1000, []⟩, ⟨2000, []⟩, ⟨3000, []⟩] none (fun s => [⟨s, []⟩]) 0 5
    [⟨1000, []⟩, ⟨2000, []⟩, ⟨2001, []⟩]
    (by decide) (by decide)
    (fun s => ⟨List.chain'_singleton _, by
      intro x hx
      rw [List.mem_singleton] at hx
      rw [hx]⟩)
    (by decide)

/-- Claim C8, witness at a concrete input. -/
theorem C8_line_stop_keeps_first_rows_witness :
    trim_tickerlist [⟨1, []⟩, ⟨2, []⟩, ⟨3, []⟩] ⟨some "line", none, 2, 0⟩ =
      .ok [⟨1, []⟩, ⟨2, []⟩] :=
  C8_line_stop_keeps_first_rows [⟨1, []⟩, ⟨2, []⟩, ⟨3, []⟩]
    ⟨some "line", none, 2, 0⟩ (by decide) rfl (by decide)
